import Mathlib

/-!
# Rse: a value-or-error outcome in one pointer-sized word

A shallow embedding of `rse.hpp` (namespace `RSE`, the alias `Rse`) and of the
instantiations made by `test.cpp`.

* Object storage is modelled byte by byte: `Mem` maps a byte offset inside an object to
  the byte stored there, so that the two views of the anonymous unions (the payload
  `T value` and the box `Error error`, a single pointer) read and write the same bytes.
* A payload value of type `T` is the representation of the member `T value`, a list of
  bytes: `sizeof(T)` of them, or the 8 bytes of an address for a reference payload.
* Pointers are 64-bit words (`Nat` below `2 ^ 64`); `reinterpret_cast<size_t>` of the
  pointer member is `loadWord`, which assembles the eight bytes in the byte order of the
  target.
* The free store is explicit state (`Heap`): `new` and `delete` thread it and count.
* What a type contributes to the layout is a `TypeInfo`; a reference payload is stored as
  a pointer although `sizeof` gives the size of the referenced type.

Three members of the header have no instance and are therefore not embedded: the move
constructors `RseSmall(RseSmall&&)` and `RseBig(RseBig&&)`, whose initialiser
`rseErrorWarp(rse.rseErrorWarp)` needs a copy constructor of `RseErrorWarp` that is
deleted (and, for `RseSmall`, whose body assigns the integer 1 to an `Error`), and
`RseBig::operator bool`, which reads `this->success`, not a member of `RseBig`.
-/

namespace RSE

/-! ## Bytes, words and byte order -/

/-- Byte order of the target, the value of `RSE::endian::native`.  A target that is
neither is rejected at compile time by the `static_assert` of `getOffset`. -/
inductive endian where
  | little
  | big
deriving DecidableEq

/-- One `uint8_t`. -/
abbrev Byte := Fin 256

/-- The bytes of one object, by offset from the start of the object. -/
abbrev Mem := Nat → Byte

/-- Size of a pointer (and of `size_t`) in bytes: the constant `8` the header assumes. -/
def pointerSize : Nat := 8

/-- Byte number `k` of the integer `w`, counted from the least significant one. -/
def byteAt (w k : Nat) : Byte := ⟨w / 256 ^ k % 256, Nat.mod_lt _ (by decide)⟩

/-- The significance (power of 256) carried by the byte at offset `i` of a word. -/
def lane (native : endian) (i : Nat) : Nat :=
  match native with
  | .little => i
  | .big => 7 - i

/-- Offset of the byte that holds the least significant bit of a word. -/
def tagByte (native : endian) : Nat :=
  match native with
  | .little => 0
  | .big => 7

/-- Integer value of the pointer-sized word stored in bytes `0..7`:
`reinterpret_cast<size_t>(p)` for the pointer `p` stored at offset 0. -/
def loadWord (native : endian) (m : Mem) : Nat :=
  (m 0).val * 256 ^ lane native 0 + (m 1).val * 256 ^ lane native 1
    + (m 2).val * 256 ^ lane native 2 + (m 3).val * 256 ^ lane native 3
    + (m 4).val * 256 ^ lane native 4 + (m 5).val * 256 ^ lane native 5
    + (m 6).val * 256 ^ lane native 6 + (m 7).val * 256 ^ lane native 7

/-- Store the pointer-sized word `w` (truncated to 64 bits) in bytes `0..7`. -/
def storeWord (native : endian) (w : Nat) (m : Mem) : Mem :=
  fun i => if i < 8 then byteAt w (lane native i) else m i

/-- Read `size` bytes starting at offset `off`. -/
def loadBytes (m : Mem) (off size : Nat) : List Byte :=
  (List.range size).map (fun i => m (off + i))

/-- Write the bytes `v` starting at offset `off`. -/
def storeBytes (m : Mem) (off : Nat) (v : List Byte) : Mem :=
  fun i => if off ≤ i ∧ i < off + v.length then v.getD (i - off) 0 else m i

/-! ## The free store -/

/-- The free store holding the heap-allocated errors, with counters of what was done to
it.  `cells a` is the error living at address `a`, if any. -/
structure Heap (E : Type) where
  cells : Nat → Option E
  allocs : Nat
  frees : Nat
  badFrees : Nat

namespace Heap

/-- The free store before any allocation. -/
def empty {E : Type} : Heap E := ⟨fun _ => none, 0, 0, 0⟩

/-- The expression `new ErrorType(x)`, when the allocator hands out address `p`. -/
def new {E : Type} (h : Heap E) (p : Nat) (x : E) : Heap E :=
  { h with cells := fun a => if a = p then some x else h.cells a, allocs := h.allocs + 1 }

/-- The expression `delete p`: nothing for the null pointer, the release of a live error
(counted in `frees`), and otherwise a release of something not live, such as a second
release of the same pointer (counted in `badFrees`). -/
def delete {E : Type} (h : Heap E) (p : Nat) : Heap E :=
  if p = 0 then h
  else match h.cells p with
    | some _ => { h with cells := fun a => if a = p then none else h.cells a, frees := h.frees + 1 }
    | none => { h with badFrees := h.badFrees + 1 }

/-- The assignment `*p = x` through a pointer to a live error; the store is left as it is
when nothing lives at `p`. -/
def assign {E : Type} (h : Heap E) (p : Nat) (x : E) : Heap E :=
  match h.cells p with
  | some _ => { h with cells := fun a => if a = p then some x else h.cells a }
  | none => h

end Heap

/-! ## `RSE::Error<ErrorType>` -/

/-- The box `Error<ErrorType>`: its only member is the pointer `error`. -/
structure Error where
  error : Nat
deriving DecidableEq

namespace Error

/-- The constructors `Error(ErrorType&&)` and `Error(const ErrorType&)`:
`error(new ErrorType(error))`, the allocator handing out `p`. -/
def ofErrorType {E : Type} (h : Heap E) (p : Nat) (error : E) : Heap E × Error :=
  (h.new p error, ⟨p⟩)

/-- The move constructor `Error(Error&&)`: takes the pointer and nulls the source.
Returns the new box and the source as left behind. -/
def move (error : Error) : Error × Error :=
  (⟨error.error⟩, ⟨0⟩)

/-- The member `free()`: `delete this->error`. -/
def free {E : Type} (h : Heap E) (self : Error) : Heap E :=
  h.delete self.error

/-- The copy constructor `Error(const Error&)`: `this->error = new ErrorType(*error.error)`,
the allocator handing out `q`; `none` when the source points at nothing live. -/
def copy {E : Type} (h : Heap E) (q : Nat) (error : Error) : Option (Heap E × Error) :=
  match h.cells error.error with
  | some x => some (h.new q x, ⟨q⟩)
  | none => none

/-- The destructor `~Error() = default` ("Do not free there"): the free store is left as
it is. -/
def destroy {E : Type} (h : Heap E) (_self : Error) : Heap E :=
  h

/-- The conversion `operator Error<NewErrorType>&()`:
`reinterpret_cast<Error<NewErrorType>&>(*this)`, the same box seen with another pointer
type. -/
def upcast (self : Error) : Error :=
  self

end Error

/-- What a class hierarchy fixes for an upcast from a derived error type to `Base`:
`sizeof(Base)` and the offset of the `Base` subobject inside a derived object.  Error
objects of the derived type are their object representation, a list of bytes. -/
structure BaseOf where
  offset : Nat
  size : Nat
deriving DecidableEq

/-- The `Base`-typed part of the derived object `e`, `static_cast<const Base&>(e)`. -/
def BaseOf.part (b : BaseOf) (e : List Byte) : List Byte :=
  (e.drop b.offset).take b.size

/-! ## Types and their layout -/

/-- What the layout rules need to know of a C++ type `T`: `sizeof(T)`, `alignof(T)` and
whether `T` is a reference type.  For a reference type `U&`, `sizeof` and `alignof` give
the size and alignment of `U`, while a member of type `U&` is stored as a pointer. -/
structure TypeInfo where
  size : Nat
  align : Nat
  isRef : Bool
deriving DecidableEq

namespace TypeInfo

/-- An object type: positive size, alignment a power of two that divides the size. -/
def isObject (T : TypeInfo) : Prop :=
  T.isRef = false ∧ 0 < T.size ∧ (∃ k, T.align = 2 ^ k) ∧ T.align ∣ T.size

/-- Bytes taken by a non-static data member of type `T`. -/
def memberSize (T : TypeInfo) : Nat :=
  if T.isRef then pointerSize else T.size

/-- Alignment of a non-static data member of type `T`. -/
def memberAlign (T : TypeInfo) : Nat :=
  if T.isRef then pointerSize else T.align

/-- The type `int` of the test program. -/
def int : TypeInfo := ⟨4, 4, false⟩

/-- The type `int&` of `fn2`. -/
def intRef : TypeInfo := ⟨4, 4, true⟩

/-- A 64-bit integer or pointer type. -/
def int64 : TypeInfo := ⟨8, 8, false⟩

/-- The type `std::string`, the default `ErrorType` (32 bytes with libstdc++). -/
def string : TypeInfo := ⟨32, 8, false⟩

end TypeInfo

/-- Round `n` up to a multiple of the alignment `a`. -/
def alignUp (n a : Nat) : Nat :=
  (n + a - 1) / a * a

/-! ## `RSE::RseSmall<T, ErrorType>` -/

namespace RseSmall

/-- The function `getOffset()`; `size` is `sizeof(T)`. -/
def getOffset (native : endian) (size : Nat) : Nat :=
  match native with
  | .little => if size ≤ 4 then 4 else if size ≤ 6 then 2 else 1
  | .big => 0

/-- Offset of the member `value` inside the anonymous
`struct { uint8_t _offset[offset]; T value; }`: `getOffset()` rounded up to the alignment
of the member, which for a reference payload is that of a pointer. -/
def valueAt (native : endian) (T : TypeInfo) : Nat :=
  alignUp (getOffset native T.size) T.memberAlign

/-- The class `RseSmall::RseErrorWarp`: the bytes of its anonymous union
`union { struct { uint8_t _offset[offset]; T value; }; Error error; }`. -/
structure RseErrorWarp where
  bytes : Mem

namespace RseErrorWarp

/-- The expression `reinterpret_cast<size_t>(this->error.error)`. -/
def errorWord (native : endian) (w : RseErrorWarp) : Nat :=
  loadWord native w.bytes

/-- The conversion `explicit operator bool()`: `!(size_t(error.error) & 1)`. -/
def toBool (native : endian) (w : RseErrorWarp) : Bool :=
  !((w.errorWord native &&& 1) != 0)

/-- The constructor `RseErrorWarp(T value)`: initialises the member `value`, where the
layout puts it, then ORs 1 into the pointer.  `value` is the representation of the
member, `T.memberSize` bytes (for a reference payload, the address it is bound to);
`prior` is what the storage held before. -/
def ofValue (native : endian) (T : TypeInfo) (prior : Mem) (value : List Byte) :
    RseErrorWarp :=
  let m := storeBytes prior (valueAt native T) value
  ⟨storeWord native (loadWord native m ||| 1) m⟩

/-- The constructor `RseErrorWarp(Error error)`: the member `error` takes the pointer. -/
def ofError (native : endian) (prior : Mem) (error : Error) : RseErrorWarp :=
  ⟨storeWord native (Error.move error).1.error prior⟩

/-- The member `value` read back: its `T.memberSize` bytes, where the layout puts it. -/
def value (native : endian) (T : TypeInfo) (w : RseErrorWarp) : List Byte :=
  loadBytes w.bytes (valueAt native T) T.memberSize

/-- The member `error` read back as a box. -/
def error (native : endian) (w : RseErrorWarp) : Error :=
  ⟨w.errorWord native⟩

/-- The dereference `operator*()`: `*this->error.error`; `none` when nothing lives
there. -/
def deref {E : Type} (native : endian) (h : Heap E) (w : RseErrorWarp) : Option E :=
  h.cells (w.error native).error

/-- The dereference `operator*()` of a handle whose `ErrorType` is `Base`, when what lives
at the address is an object of a derived type: the `sizeof(Base)` bytes that start at the
address itself. -/
def derefBase (native : endian) (b : BaseOf) (h : Heap (List Byte)) (w : RseErrorWarp) :
    Option (List Byte) :=
  (h.cells (w.error native).error).map (fun obj => obj.take b.size)

/-- The constructor `RseErrorWarp(ErrorType error)`: `error(Error(std::move(error)))`,
a fresh box whose pointer becomes the word. -/
def ofErrorType {E : Type} (native : endian) (h : Heap E) (p : Nat) (prior : Mem) (error : E) :
    Heap E × RseErrorWarp :=
  let (h1, box) := Error.ofErrorType h p error
  (h1, ⟨storeWord native box.error prior⟩)

end RseErrorWarp

end RseSmall

/-- The class `RseSmall<T, ErrorType>`: its only non-static member is `rseErrorWarp`. -/
structure RseSmall where
  rseErrorWarp : RseSmall.RseErrorWarp

namespace RseSmall

/-- The constructor `RseSmall(T value)`. -/
def ofValue (native : endian) (T : TypeInfo) (prior : Mem) (value : List Byte) : RseSmall :=
  ⟨RseErrorWarp.ofValue native T prior value⟩

/-- The constructor `RseSmall(Error&& error)`: `rseErrorWarp(std::move(error))`.  The
by-value parameter of `RseErrorWarp(Error)` is move-constructed from the caller's box,
which is returned as left behind. -/
def ofError (native : endian) (prior : Mem) (error : Error) : RseSmall × Error :=
  let (param, left) := Error.move error
  (⟨RseErrorWarp.ofError native prior param⟩, left)

/-- The constructor `RseSmall(RSE::Error<InheritedErrorType>&& error)`:
`rseErrorWarp(std::move(static_cast<Error&>(error)))`, the box of the derived type seen as
a box of `ErrorType` through the conversion. -/
def ofInheritedError (native : endian) (prior : Mem) (error : Error) : RseSmall × Error :=
  ofError native prior (Error.upcast error)

/-- The constructor `RseSmall(ErrorType error)`, the allocator handing out `p`. -/
def ofErrorType {E : Type} (native : endian) (h : Heap E) (p : Nat) (prior : Mem) (error : E) :
    Heap E × RseSmall :=
  let (h1, w) := RseErrorWarp.ofErrorType native h p prior error
  (h1, ⟨w⟩)

/-- The destructor `~RseSmall()`: frees when the low bit of the pointer is 0. -/
def destroy {E : Type} (native : endian) (h : Heap E) (rse : RseSmall) : Heap E :=
  if (rse.rseErrorWarp.errorWord native &&& 1) = 0 then
    Error.free h (rse.rseErrorWarp.error native)
  else h

/-- The conversion `explicit operator bool()`: `!bool(this->rseErrorWarp)`. -/
def toBool (native : endian) (rse : RseSmall) : Bool :=
  !(rse.rseErrorWarp.toBool native)

/-- Slot 0 of the destructuring, `get<0>()`: the member `rseErrorWarp.value`. -/
def get0 (native : endian) (T : TypeInfo) (rse : RseSmall) : List Byte :=
  rse.rseErrorWarp.value native T

/-- Slot 1 of the destructuring, `get<1>()`: the member `rseErrorWarp`. -/
def get1 (rse : RseSmall) : RseErrorWarp :=
  rse.rseErrorWarp

/-- The destructors of a list of outcomes, run in list order. -/
def destroyAll {E : Type} (native : endian) : Heap E → List RseSmall → Heap E
  | h, [] => h
  | h, rse :: rest => destroyAll native (destroy native h rse) rest

/-- Failure outcomes constructed one after the other, one per request: the address the
allocator hands out, the prior content of the outcome's storage, the error. -/
def constructAll {E : Type} (native : endian) :
    Heap E → List (Nat × Mem × E) → Heap E × List RseSmall
  | h, [] => (h, [])
  | h, (p, prior, error) :: rest =>
    let (h1, rse) := ofErrorType native h p prior error
    let (h2, rses) := constructAll native h1 rest
    (h2, rse :: rses)

end RseSmall

/-! ## `RSE::RseBig<T, ErrorType>` -/

namespace RseBig

/-- The class `RseBig::RseErrorWarp`: the discriminant `bool success` and the bytes of
the anonymous union `union { T value; Error error; }`. -/
structure RseErrorWarp where
  success : Bool
  bytes : Mem

namespace RseErrorWarp

/-- The conversion `explicit operator bool()`: `this->success == false`. -/
def toBool (w : RseErrorWarp) : Bool :=
  w.success == false

/-- The constructor `RseErrorWarp(T&& value)`: `success(true), value(value)`. -/
def ofValue (prior : Mem) (value : List Byte) : RseErrorWarp :=
  ⟨true, storeBytes prior 0 value⟩

/-- The constructor `RseErrorWarp(Error&& error)`: `success(false), error(std::move(error))`. -/
def ofError (native : endian) (prior : Mem) (error : Error) : RseErrorWarp :=
  ⟨false, storeWord native (Error.move error).1.error prior⟩

/-- The constructor `RseErrorWarp(ErrorType error)`:
`success(false), error(Error(std::move(error)))`. -/
def ofErrorType {E : Type} (native : endian) (h : Heap E) (p : Nat) (prior : Mem) (error : E) :
    Heap E × RseErrorWarp :=
  let (h1, box) := Error.ofErrorType h p error
  (h1, ⟨false, storeWord native box.error prior⟩)

/-- The member `value` read back as a `T` of `size` bytes. -/
def value (size : Nat) (w : RseErrorWarp) : List Byte :=
  loadBytes w.bytes 0 size

/-- The member `error` read back as a box. -/
def error (native : endian) (w : RseErrorWarp) : Error :=
  ⟨loadWord native w.bytes⟩

/-- The dereference `operator*()`: `*this->error.error`; `none` when nothing lives
there. -/
def deref {E : Type} (native : endian) (h : Heap E) (w : RseErrorWarp) : Option E :=
  h.cells (w.error native).error

/-- The dereference `operator*()` of a handle whose `ErrorType` is `Base`, when what lives
at the address is an object of a derived type: the `sizeof(Base)` bytes that start at the
address itself. -/
def derefBase (native : endian) (b : BaseOf) (h : Heap (List Byte)) (w : RseErrorWarp) :
    Option (List Byte) :=
  (h.cells (w.error native).error).map (fun obj => obj.take b.size)

end RseErrorWarp

end RseBig

/-- The class `RseBig<T, ErrorType>`: its only member is `rseErrorWarp`. -/
structure RseBig where
  rseErrorWarp : RseBig.RseErrorWarp

namespace RseBig

/-- The constructor `RseBig(T value)`. -/
def ofValue (prior : Mem) (value : List Byte) : RseBig :=
  ⟨RseErrorWarp.ofValue prior value⟩

/-- The constructor `RseBig(Error error)`: `rseErrorWarp(std::move(error))`; the caller's
box, moved into the by-value parameter, is returned as left behind. -/
def ofError (native : endian) (prior : Mem) (error : Error) : RseBig × Error :=
  let (param, left) := Error.move error
  (⟨RseErrorWarp.ofError native prior param⟩, left)

/-- The constructor `RseBig(RSE::Error<InheritedErrorType>&& error)`:
`rseErrorWarp(std::move(static_cast<Error&>(error)))`, the box of the derived type seen as
a box of `ErrorType` through the conversion. -/
def ofInheritedError (native : endian) (prior : Mem) (error : Error) : RseBig × Error :=
  ofError native prior (Error.upcast error)

/-- The constructor `RseBig(ErrorType error)`, the allocator handing out `p`. -/
def ofErrorType {E : Type} (native : endian) (h : Heap E) (p : Nat) (prior : Mem) (error : E) :
    Heap E × RseBig :=
  let (h1, w) := RseErrorWarp.ofErrorType native h p prior error
  (h1, ⟨w⟩)

/-- The destructor `~RseBig()`: `if (success == false) error.free()`. -/
def destroy {E : Type} (native : endian) (h : Heap E) (rse : RseBig) : Heap E :=
  if rse.rseErrorWarp.success == false then
    Error.free h (rse.rseErrorWarp.error native)
  else h

/-- Slot 0 of the destructuring, `get<0>()`: the member `rseErrorWarp.value`. -/
def get0 (size : Nat) (rse : RseBig) : List Byte :=
  rse.rseErrorWarp.value size

/-- Slot 1 of the destructuring, `get<1>()`: the member `rseErrorWarp`. -/
def get1 (rse : RseBig) : RseErrorWarp :=
  rse.rseErrorWarp

/-- The destructors of a list of outcomes, run in list order. -/
def destroyAll {E : Type} (native : endian) : Heap E → List RseBig → Heap E
  | h, [] => h
  | h, rse :: rest => destroyAll native (destroy native h rse) rest

/-- Failure outcomes constructed one after the other, one per request: the address the
allocator hands out, the prior content of the outcome's storage, the error. -/
def constructAll {E : Type} (native : endian) :
    Heap E → List (Nat × Mem × E) → Heap E × List RseBig
  | h, [] => (h, [])
  | h, (p, prior, error) :: rest =>
    let (h1, rse) := ofErrorType native h p prior error
    let (h2, rses) := constructAll native h1 rest
    (h2, rse :: rses)

end RseBig

/-! ## Object layout and the alias `Rse` -/

/-- The value of `sizeof(Error<ErrorType>)`: one pointer, whatever `ErrorType` is. -/
def sizeofError (_E : TypeInfo) : Nat :=
  pointerSize

/-- The value of `sizeof(RseSmall<T, ErrorType>)`: the size of the anonymous union of
`struct { uint8_t _offset[offset]; T value; }` with `Error error`. -/
def sizeofRseSmall (native : endian) (T E : TypeInfo) : Nat :=
  let offset := RseSmall.getOffset native T.size
  let valueAt := alignUp offset T.memberAlign
  let structAlign := max 1 T.memberAlign
  let structSize := alignUp (valueAt + T.memberSize) structAlign
  let unionAlign := max structAlign pointerSize
  alignUp (max structSize (sizeofError E)) unionAlign

/-- The two physical layouts. -/
inductive Layout where
  | RseSmall
  | RseBig
deriving DecidableEq

end RSE

/-- The alias `Rse<T, ErrorType>`:
`std::conditional_t<sizeof(T) < 8, RSE::RseSmall<T, ErrorType>, RSE::RseBig<T, ErrorType>>`. -/
def Rse (T _E : RSE.TypeInfo) : RSE.Layout :=
  if T.size < 8 then RSE.Layout.RseSmall else RSE.Layout.RseBig

namespace RSE

/-! ## The abstract outcome of the specification -/

/-- The outcome as the specification words it (section 3): a sum type with exactly two
branches, `Value(T)` or `Failure(E)`. -/
inductive Outcome (E : Type) where
  | Value (v : List Byte)
  | Failure (e : E)

namespace Outcome

/-- Specification: `isSuccess() -> bool`. -/
def isSuccess {E : Type} : Outcome E → Bool
  | Value _ => true
  | Failure _ => false

/-- Specification: `value()`, defined when `isSuccess()`. -/
def value {E : Type} : Outcome E → Option (List Byte)
  | Value v => some v
  | Failure _ => none

/-- Specification: `error()`, defined when `!isSuccess()`. -/
def error {E : Type} : Outcome E → Option E
  | Value _ => none
  | Failure e => some e

/-- Specification: slot 1 converts to bool, true meaning "is an error". -/
def isError {E : Type} (o : Outcome E) : Bool :=
  !o.isSuccess

end Outcome

/-! ## Arithmetic of words -/

theorem lor_one_eq (w : Nat) : w ||| 1 = 2 * (w / 2) + 1 := by
  apply Nat.eq_of_testBit_eq
  intro i
  rw [Nat.testBit_or]
  cases i with
  | zero =>
    simp [Nat.testBit_zero]
    omega
  | succ n =>
    simp [Nat.testBit_succ]
    have h : (2 * (w / 2) + 1) / 2 = w / 2 := by omega
    rw [h]

theorem lor_one_div (w : Nat) : (w ||| 1) / 256 = w / 256 := by
  rw [lor_one_eq]
  omega

theorem lor_one_mod_two (w : Nat) : (w ||| 1) % 2 = 1 := by
  rw [lor_one_eq]
  omega

theorem lor_one_lt (w : Nat) (h : w < 2 ^ 64) : w ||| 1 < 2 ^ 64 := by
  rw [lor_one_eq]
  norm_num at h ⊢
  omega

theorem byteAt_lor_one (w k : Nat) (hk : k ≠ 0) : byteAt (w ||| 1) k = byteAt w k := by
  obtain ⟨j, rfl⟩ := Nat.exists_eq_succ_of_ne_zero hk
  apply Fin.ext
  simp only [byteAt]
  rw [Nat.pow_succ, Nat.mul_comm, ← Nat.div_div_eq_div_mul, ← Nat.div_div_eq_div_mul,
    lor_one_div]

theorem loadWord_lt (native : endian) (m : Mem) : loadWord native m < 2 ^ 64 := by
  have h0 := (m 0).isLt
  have h1 := (m 1).isLt
  have h2 := (m 2).isLt
  have h3 := (m 3).isLt
  have h4 := (m 4).isLt
  have h5 := (m 5).isLt
  have h6 := (m 6).isLt
  have h7 := (m 7).isLt
  cases native <;> simp only [loadWord, lane] <;> norm_num <;> omega

theorem byteAt_loadWord (native : endian) (m : Mem) (i : Nat) (hi : i < 8) :
    byteAt (loadWord native m) (lane native i) = m i := by
  have h0 := (m 0).isLt
  have h1 := (m 1).isLt
  have h2 := (m 2).isLt
  have h3 := (m 3).isLt
  have h4 := (m 4).isLt
  have h5 := (m 5).isLt
  have h6 := (m 6).isLt
  have h7 := (m 7).isLt
  apply Fin.ext
  cases native <;> interval_cases i <;> simp only [byteAt, loadWord, lane] <;> norm_num <;> omega

theorem loadWord_storeWord (native : endian) (w : Nat) (m : Mem) :
    loadWord native (storeWord native w m) = w % 2 ^ 64 := by
  cases native <;> simp only [loadWord, storeWord, byteAt, lane] <;> norm_num <;> omega

theorem loadWord_mod_two (native : endian) (m : Mem) :
    loadWord native m % 2 = (m (tagByte native)).val % 2 := by
  cases native <;> simp only [loadWord, lane, tagByte] <;> norm_num <;> omega

/-! ## Frame of the tag bit -/

theorem lane_ne_zero (native : endian) (j : Nat) (hj : j ≠ tagByte native) (h8 : j < 8) :
    lane native j ≠ 0 := by
  cases native <;> simp only [lane, tagByte] at * <;> omega

theorem storeWord_lor_one_frame (native : endian) (m : Mem) (j : Nat)
    (hj : j ≠ tagByte native) :
    storeWord native (loadWord native m ||| 1) m j = m j := by
  by_cases h8 : j < 8
  · simp only [storeWord, h8, if_true]
    rw [byteAt_lor_one _ _ (lane_ne_zero native j hj h8), byteAt_loadWord native m j h8]
  · simp only [storeWord, h8, if_false]

theorem getOffset_add_le (native : endian) (size : Nat) (h7 : size ≤ 7) :
    RseSmall.getOffset native size + size ≤ 8 := by
  cases native <;> simp only [RseSmall.getOffset] <;> (try split_ifs) <;> omega

theorem getOffset_range_ne_tagByte (native : endian) (size j : Nat) (h7 : size ≤ 7)
    (hlo : RseSmall.getOffset native size ≤ j) (hhi : j < RseSmall.getOffset native size + size) :
    j ≠ tagByte native := by
  cases native <;> simp only [RseSmall.getOffset, tagByte] at * <;> (try split_ifs at *) <;> omega

theorem loadBytes_storeBytes (m : Mem) (off : Nat) (v : List Byte) :
    loadBytes (storeBytes m off v) off v.length = v := by
  apply List.ext_getElem
  · simp [loadBytes]
  · intro i h1 h2
    simp only [loadBytes, List.getElem_map, List.getElem_range, storeBytes]
    have hi : off ≤ off + i ∧ off + i < off + v.length := ⟨by omega, by omega⟩
    simp only [hi, and_self, if_true, Nat.add_sub_cancel_left]
    simp [List.getD_eq_getElem?_getD, List.getElem?_eq_getElem h2]

theorem loadBytes_congr (m1 m2 : Mem) (off size : Nat)
    (h : ∀ j, off ≤ j → j < off + size → m1 j = m2 j) :
    loadBytes m1 off size = loadBytes m2 off size := by
  apply List.ext_getElem
  · simp [loadBytes]
  · intro i h1 h2
    simp only [loadBytes, List.length_map, List.length_range] at h1
    simp only [loadBytes, List.getElem_map, List.getElem_range]
    exact h (off + i) (by omega) (by omega)

theorem and_one_of_odd (w : Nat) (h : w % 2 = 1) : w &&& 1 = 1 := by
  rw [Nat.and_one_is_mod]
  exact h

theorem and_one_of_even (w : Nat) (h : w % 2 = 0) : w &&& 1 = 0 := by
  rw [Nat.and_one_is_mod]
  exact h

theorem errorWord_ofValue (native : endian) (T : TypeInfo) (prior : Mem) (v : List Byte) :
    (RseSmall.RseErrorWarp.ofValue native T prior v).errorWord native
      = loadWord native (storeBytes prior (RseSmall.valueAt native T) v) ||| 1 := by
  simp only [RseSmall.RseErrorWarp.ofValue, RseSmall.RseErrorWarp.errorWord]
  rw [loadWord_storeWord]
  exact Nat.mod_eq_of_lt (lor_one_lt _ (loadWord_lt _ _))

theorem value_ofValue (native : endian) (T : TypeInfo) (prior : Mem) (v : List Byte)
    (hv : v.length = T.memberSize)
    (hoff : ∀ j, RseSmall.valueAt native T ≤ j → j < RseSmall.valueAt native T + T.memberSize →
      j ≠ tagByte native) :
    (RseSmall.RseErrorWarp.ofValue native T prior v).value native T = v := by
  simp only [RseSmall.RseErrorWarp.ofValue, RseSmall.RseErrorWarp.value]
  rw [loadBytes_congr _ (storeBytes prior (RseSmall.valueAt native T) v)]
  · rw [← hv]
    exact loadBytes_storeBytes _ _ _
  · intro j hlo hhi
    exact storeWord_lor_one_frame native _ j (hoff j hlo hhi)

theorem toBool_ofValue (native : endian) (T : TypeInfo) (prior : Mem) (v : List Byte) :
    (RseSmall.RseErrorWarp.ofValue native T prior v).toBool native = false := by
  simp only [RseSmall.RseErrorWarp.toBool, errorWord_ofValue]
  rw [and_one_of_odd _ (lor_one_mod_two _)]
  rfl

theorem toBool_small_ofValue (native : endian) (T : TypeInfo) (prior : Mem) (v : List Byte) :
    (RseSmall.ofValue native T prior v).toBool native = true := by
  simp only [RseSmall.toBool, RseSmall.ofValue, toBool_ofValue]
  rfl

theorem errorWord_ofErrorType {E : Type} (native : endian) (h : Heap E) (p : Nat) (prior : Mem)
    (e : E) (hp : p < 2 ^ 64) :
    (RseSmall.ofErrorType native h p prior e).2.rseErrorWarp.errorWord native = p := by
  simp only [RseSmall.ofErrorType, RseSmall.RseErrorWarp.ofErrorType, Error.ofErrorType,
    RseSmall.RseErrorWarp.errorWord]
  rw [loadWord_storeWord]
  exact Nat.mod_eq_of_lt hp

theorem toBool_ofErrorType {E : Type} (native : endian) (h : Heap E) (p : Nat) (prior : Mem)
    (e : E) (hp : p < 2 ^ 64) (hlow : p % 2 = 0) :
    (RseSmall.ofErrorType native h p prior e).2.rseErrorWarp.toBool native = true := by
  simp only [RseSmall.RseErrorWarp.toBool, errorWord_ofErrorType native h p prior e hp]
  rw [and_one_of_even p hlow]
  rfl

theorem deref_ofErrorType {E : Type} (native : endian) (h : Heap E) (p : Nat) (prior : Mem)
    (e : E) (hp : p < 2 ^ 64) :
    (RseSmall.ofErrorType native h p prior e).2.rseErrorWarp.deref native
      (RseSmall.ofErrorType native h p prior e).1 = some e := by
  simp only [RseSmall.RseErrorWarp.deref, RseSmall.RseErrorWarp.error,
    errorWord_ofErrorType native h p prior e hp]
  simp [RseSmall.ofErrorType, RseSmall.RseErrorWarp.ofErrorType, Error.ofErrorType, Heap.new]

theorem errorWord_ofError (native : endian) (prior : Mem) (p : Nat) (hp : p < 2 ^ 64) :
    (RseSmall.ofError native prior ⟨p⟩).1.rseErrorWarp.errorWord native = p := by
  simp only [RseSmall.ofError, RseSmall.RseErrorWarp.ofError, Error.move,
    RseSmall.RseErrorWarp.errorWord]
  rw [loadWord_storeWord]
  exact Nat.mod_eq_of_lt hp

/-! ## Layout and the general layout -/

theorem align_cases (size align : Nat) (h7 : size ≤ 7) (h0 : 0 < size)
    (hpow : ∃ k, align = 2 ^ k) (hdvd : align ∣ size) :
    align = 1 ∨ align = 2 ∨ align = 4 := by
  obtain ⟨k, rfl⟩ := hpow
  have hle : 2 ^ k ≤ size := Nat.le_of_dvd h0 hdvd
  have hk : k < 3 := by
    by_contra hk
    have : 2 ^ 3 ≤ 2 ^ k := Nat.pow_le_pow_right (by decide) (by omega)
    omega
  interval_cases k <;> simp

theorem valueAt_object (native : endian) (T : TypeInfo) (hT : T.isObject) (h7 : T.size ≤ 7) :
    RseSmall.valueAt native T = RseSmall.getOffset native T.size ∧ T.memberSize = T.size := by
  obtain ⟨size, align, isRef⟩ := T
  obtain ⟨hr, h0, hpow, hdvd⟩ := hT
  simp only at hr h0 hpow hdvd h7
  subst hr
  have ha := align_cases size align h7 h0 hpow hdvd
  have hs : size = 1 ∨ size = 2 ∨ size = 3 ∨ size = 4 ∨ size = 5 ∨ size = 6 ∨ size = 7 := by
    omega
  rcases ha with rfl | rfl | rfl <;> rcases hs with rfl | rfl | rfl | rfl | rfl | rfl | rfl <;>
    first
    | (exfalso; revert hdvd; decide)
    | (cases native <;>
        simp [RseSmall.valueAt, RseSmall.getOffset, alignUp, TypeInfo.memberAlign,
          TypeInfo.memberSize])

theorem destroy_of_odd {E : Type} (native : endian) (h : Heap E) (rse : RseSmall)
    (hw : rse.rseErrorWarp.errorWord native % 2 = 1) : RseSmall.destroy native h rse = h := by
  simp only [RseSmall.destroy]
  rw [and_one_of_odd _ hw]
  simp

theorem value_big_ofValue (prior : Mem) (v : List Byte) (size : Nat) (hv : v.length = size) :
    RseBig.get0 size (RseBig.ofValue prior v) = v := by
  subst hv
  exact loadBytes_storeBytes prior 0 v

theorem error_big_ofErrorType {E : Type} (native : endian) (h : Heap E) (p : Nat) (prior : Mem)
    (e : E) (hp : p < 2 ^ 64) :
    (RseBig.ofErrorType native h p prior e).2.rseErrorWarp.error native = ⟨p⟩ := by
  simp only [RseBig.ofErrorType, RseBig.RseErrorWarp.ofErrorType, Error.ofErrorType,
    RseBig.RseErrorWarp.error]
  rw [loadWord_storeWord, Nat.mod_eq_of_lt hp]

/-! ## Counting allocations and frees -/

theorem delete_comm {E : Type} (h : Heap E) (p q : Nat) :
    (h.delete p).delete q = (h.delete q).delete p := by
  by_cases hpq : p = q
  · subst hpq
    rfl
  · have hqp : q ≠ p := Ne.symm hpq
    by_cases hp : p = 0
    · subst hp
      simp [Heap.delete]
    · by_cases hq : q = 0
      · subst hq
        simp [Heap.delete]
      · cases hcp : h.cells p <;> cases hcq : h.cells q <;>
          simp [Heap.delete, hp, hq, hcp, hcq, hpq, hqp]
        · funext a
          by_cases ha : a = q <;> by_cases hb : a = p <;> simp [ha, hb]

theorem delete_live {E : Type} (F : Heap E) (p : Nat) (e : E) (hp0 : p ≠ 0)
    (hc : F.cells p = some e) :
    (F.delete p).allocs = F.allocs ∧ (F.delete p).frees = F.frees + 1
      ∧ (F.delete p).badFrees = F.badFrees
      ∧ (∀ a, a ≠ p → (F.delete p).cells a = F.cells a) ∧ (F.delete p).cells p = none := by
  have hd : F.delete p
      = { F with cells := fun a => if a = p then none else F.cells a, frees := F.frees + 1 } := by
    simp [Heap.delete, hp0, hc]
  rw [hd]
  refine ⟨rfl, rfl, rfl, ?_, ?_⟩
  · intro a ha
    simp [ha]
  · simp

theorem destroy_small_comm {E : Type} (native : endian) (h : Heap E) (x y : RseSmall) :
    RseSmall.destroy native (RseSmall.destroy native h x) y
      = RseSmall.destroy native (RseSmall.destroy native h y) x := by
  simp only [RseSmall.destroy, Error.free]
  split_ifs <;> first | rfl | exact delete_comm _ _ _

theorem destroy_big_comm {E : Type} (native : endian) (h : Heap E) (x y : RseBig) :
    RseBig.destroy native (RseBig.destroy native h x) y
      = RseBig.destroy native (RseBig.destroy native h y) x := by
  simp only [RseBig.destroy, Error.free]
  split_ifs <;> first | rfl | exact delete_comm _ _ _

theorem destroyAll_small_perm {E : Type} (native : endian) (l1 l2 : List RseSmall)
    (hperm : l1.Perm l2) (h : Heap E) :
    RseSmall.destroyAll native h l1 = RseSmall.destroyAll native h l2 := by
  induction hperm generalizing h with
  | nil => rfl
  | cons x _ ih =>
    simp only [RseSmall.destroyAll]
    exact ih _
  | swap x y l =>
    simp only [RseSmall.destroyAll]
    rw [destroy_small_comm]
  | trans _ _ ih1 ih2 => rw [ih1, ih2]

theorem destroyAll_big_perm {E : Type} (native : endian) (l1 l2 : List RseBig)
    (hperm : l1.Perm l2) (h : Heap E) :
    RseBig.destroyAll native h l1 = RseBig.destroyAll native h l2 := by
  induction hperm generalizing h with
  | nil => rfl
  | cons x _ ih =>
    simp only [RseBig.destroyAll]
    exact ih _
  | swap x y l =>
    simp only [RseBig.destroyAll]
    rw [destroy_big_comm]
  | trans _ _ ih1 ih2 => rw [ih1, ih2]

theorem destroyAll_small_append {E : Type} (native : endian) (l1 l2 : List RseSmall)
    (h : Heap E) :
    RseSmall.destroyAll native h (l1 ++ l2)
      = RseSmall.destroyAll native (RseSmall.destroyAll native h l1) l2 := by
  induction l1 generalizing h with
  | nil => rfl
  | cons x l ih =>
    simp only [List.cons_append, RseSmall.destroyAll]
    exact ih _

theorem destroyAll_big_append {E : Type} (native : endian) (l1 l2 : List RseBig)
    (h : Heap E) :
    RseBig.destroyAll native h (l1 ++ l2)
      = RseBig.destroyAll native (RseBig.destroyAll native h l1) l2 := by
  induction l1 generalizing h with
  | nil => rfl
  | cons x l ih =>
    simp only [List.cons_append, RseBig.destroyAll]
    exact ih _

theorem destroy_small_failure {E : Type} (native : endian) (h F : Heap E) (p : Nat) (prior : Mem)
    (e : E) (hp : p < 2 ^ 64) (hlow : p % 2 = 0) :
    RseSmall.destroy native F (RseSmall.ofErrorType native h p prior e).2 = F.delete p := by
  have hw := errorWord_ofErrorType native h p prior e hp
  simp only [RseSmall.destroy, Error.free, RseSmall.RseErrorWarp.error, hw]
  rw [and_one_of_even p hlow]
  simp

theorem destroy_big_failure {E : Type} (native : endian) (h F : Heap E) (p : Nat) (prior : Mem)
    (e : E) (hp : p < 2 ^ 64) :
    RseBig.destroy native F (RseBig.ofErrorType native h p prior e).2 = F.delete p := by
  have hw := error_big_ofErrorType native h p prior e hp
  simp only [RseBig.destroy, Error.free, hw]
  simp [RseBig.ofErrorType, RseBig.RseErrorWarp.ofErrorType]

theorem heap_small_ofErrorType {E : Type} (native : endian) (h : Heap E) (p : Nat) (prior : Mem)
    (e : E) : (RseSmall.ofErrorType native h p prior e).1 = h.new p e := rfl

theorem heap_big_ofErrorType {E : Type} (native : endian) (h : Heap E) (p : Nat) (prior : Mem)
    (e : E) : (RseBig.ofErrorType native h p prior e).1 = h.new p e := rfl

theorem destroyAll_small_snoc {E : Type} (native : endian) (x : RseSmall) (l : List RseSmall)
    (h : Heap E) :
    RseSmall.destroyAll native h (x :: l)
      = RseSmall.destroy native (RseSmall.destroyAll native h l) x := by
  rw [destroyAll_small_perm native (x :: l) (l ++ [x]) (List.perm_append_singleton x l).symm,
    destroyAll_small_append]
  rfl

theorem destroyAll_big_snoc {E : Type} (native : endian) (x : RseBig) (l : List RseBig)
    (h : Heap E) :
    RseBig.destroyAll native h (x :: l)
      = RseBig.destroy native (RseBig.destroyAll native h l) x := by
  rw [destroyAll_big_perm native (x :: l) (l ++ [x]) (List.perm_append_singleton x l).symm,
    destroyAll_big_append]
  rfl

theorem batch_small {E : Type} (native : endian) (reqs : List (Nat × Mem × E)) (h : Heap E)
    (hvalid : ∀ r ∈ reqs, r.1 ≠ 0 ∧ r.1 < 2 ^ 64 ∧ r.1 % 2 = 0)
    (hfresh : (reqs.map Prod.fst).Nodup) :
    (RseSmall.constructAll native h reqs).2.length = reqs.length
      ∧ (RseSmall.destroyAll native (RseSmall.constructAll native h reqs).1
          (RseSmall.constructAll native h reqs).2).allocs = h.allocs + reqs.length
      ∧ (RseSmall.destroyAll native (RseSmall.constructAll native h reqs).1
          (RseSmall.constructAll native h reqs).2).frees = h.frees + reqs.length
      ∧ (RseSmall.destroyAll native (RseSmall.constructAll native h reqs).1
          (RseSmall.constructAll native h reqs).2).badFrees = h.badFrees
      ∧ ∀ a, a ∉ reqs.map Prod.fst →
          (RseSmall.destroyAll native (RseSmall.constructAll native h reqs).1
            (RseSmall.constructAll native h reqs).2).cells a = h.cells a := by
  induction reqs generalizing h with
  | nil =>
    simp [RseSmall.constructAll, RseSmall.destroyAll]
  | cons r rest ih =>
    obtain ⟨p, prior, e⟩ := r
    have hv := hvalid (p, prior, e) (List.mem_cons_self _ _)
    simp only [List.map_cons, List.nodup_cons] at hfresh
    obtain ⟨i0, i1, i2, i3, i4⟩ := ih (h.new p e)
      (fun r hr => hvalid r (List.mem_cons_of_mem _ hr)) hfresh.2
    have hc : (RseSmall.destroyAll native (RseSmall.constructAll native (h.new p e) rest).1
        (RseSmall.constructAll native (h.new p e) rest).2).cells p = some e := by
      rw [i4 p hfresh.1]
      simp [Heap.new]
    obtain ⟨d1, d2, d3, d4, _⟩ := delete_live _ p e hv.1 hc
    have hstep : RseSmall.destroyAll native
        (RseSmall.constructAll native h ((p, prior, e) :: rest)).1
        (RseSmall.constructAll native h ((p, prior, e) :: rest)).2
        = (RseSmall.destroyAll native (RseSmall.constructAll native (h.new p e) rest).1
            (RseSmall.constructAll native (h.new p e) rest).2).delete p := by
      simp only [RseSmall.constructAll, heap_small_ofErrorType]
      rw [destroyAll_small_snoc, destroy_small_failure native h _ p prior e hv.2.1 hv.2.2]
    rw [hstep]
    refine ⟨by simp only [RseSmall.constructAll, heap_small_ofErrorType, List.length_cons, i0], ?_, ?_, ?_, ?_⟩
    · rw [d1, i1]
      simp [Heap.new]
      omega
    · rw [d2, i2]
      simp [Heap.new]
      omega
    · rw [d3, i3]
      rfl
    · intro a ha
      simp only [List.map_cons, List.mem_cons, not_or] at ha
      rw [d4 a ha.1, i4 a ha.2]
      simp [Heap.new, ha.1]

theorem batch_big {E : Type} (native : endian) (reqs : List (Nat × Mem × E)) (h : Heap E)
    (hvalid : ∀ r ∈ reqs, r.1 ≠ 0 ∧ r.1 < 2 ^ 64 ∧ r.1 % 2 = 0)
    (hfresh : (reqs.map Prod.fst).Nodup) :
    (RseBig.constructAll native h reqs).2.length = reqs.length
      ∧ (RseBig.destroyAll native (RseBig.constructAll native h reqs).1
          (RseBig.constructAll native h reqs).2).allocs = h.allocs + reqs.length
      ∧ (RseBig.destroyAll native (RseBig.constructAll native h reqs).1
          (RseBig.constructAll native h reqs).2).frees = h.frees + reqs.length
      ∧ (RseBig.destroyAll native (RseBig.constructAll native h reqs).1
          (RseBig.constructAll native h reqs).2).badFrees = h.badFrees
      ∧ ∀ a, a ∉ reqs.map Prod.fst →
          (RseBig.destroyAll native (RseBig.constructAll native h reqs).1
            (RseBig.constructAll native h reqs).2).cells a = h.cells a := by
  induction reqs generalizing h with
  | nil =>
    simp [RseBig.constructAll, RseBig.destroyAll]
  | cons r rest ih =>
    obtain ⟨p, prior, e⟩ := r
    have hv := hvalid (p, prior, e) (List.mem_cons_self _ _)
    simp only [List.map_cons, List.nodup_cons] at hfresh
    obtain ⟨i0, i1, i2, i3, i4⟩ := ih (h.new p e)
      (fun r hr => hvalid r (List.mem_cons_of_mem _ hr)) hfresh.2
    have hc : (RseBig.destroyAll native (RseBig.constructAll native (h.new p e) rest).1
        (RseBig.constructAll native (h.new p e) rest).2).cells p = some e := by
      rw [i4 p hfresh.1]
      simp [Heap.new]
    obtain ⟨d1, d2, d3, d4, _⟩ := delete_live _ p e hv.1 hc
    have hstep : RseBig.destroyAll native
        (RseBig.constructAll native h ((p, prior, e) :: rest)).1
        (RseBig.constructAll native h ((p, prior, e) :: rest)).2
        = (RseBig.destroyAll native (RseBig.constructAll native (h.new p e) rest).1
            (RseBig.constructAll native (h.new p e) rest).2).delete p := by
      simp only [RseBig.constructAll, heap_big_ofErrorType]
      rw [destroyAll_big_snoc, destroy_big_failure native h _ p prior e hv.2.1]
    rw [hstep]
    refine ⟨by simp only [RseBig.constructAll, heap_big_ofErrorType, List.length_cons, i0], ?_, ?_, ?_, ?_⟩
    · rw [d1, i1]
      simp [Heap.new]
      omega
    · rw [d2, i2]
      simp [Heap.new]
      omega
    · rw [d3, i3]
      rfl
    · intro a ha
      simp only [List.map_cons, List.mem_cons, not_or] at ha
      rw [d4 a ha.1, i4 a ha.2]
      simp [Heap.new, ha.1]

/-! ## Odd pointers and boxes -/

theorem delete_frees_live {E : Type} (h : Heap E) (p : Nat) (e : E) (hp0 : p ≠ 0)
    (hc : h.cells p = some e) :
    (h.delete p).frees = h.frees + 1 ∧ (h.delete p).badFrees = h.badFrees
      ∧ (h.delete p).cells p = none := by
  obtain ⟨_, a2, a3, _, a5⟩ := delete_live h p e hp0 hc
  exact ⟨a2, a3, a5⟩

theorem toBool_of_odd (native : endian) (w : RseSmall.RseErrorWarp)
    (hw : w.errorWord native % 2 = 1) : w.toBool native = false := by
  simp only [RseSmall.RseErrorWarp.toBool]
  rw [and_one_of_odd _ hw]
  rfl

theorem destroy_small_ofError {E : Type} (native : endian) (F : Heap E) (prior : Mem) (p : Nat)
    (hp : p < 2 ^ 64) (hlow : p % 2 = 0) :
    RseSmall.destroy native F (RseSmall.ofError native prior ⟨p⟩).1 = F.delete p := by
  have hw := errorWord_ofError native prior p hp
  simp only [RseSmall.destroy, Error.free, RseSmall.RseErrorWarp.error, hw]
  rw [and_one_of_even p hlow]
  simp

theorem error_big_ofError (native : endian) (prior : Mem) (p : Nat) (hp : p < 2 ^ 64) :
    (RseBig.ofError native prior ⟨p⟩).1.rseErrorWarp.error native = ⟨p⟩ := by
  simp only [RseBig.ofError, RseBig.RseErrorWarp.ofError, Error.move,
    RseBig.RseErrorWarp.error]
  rw [loadWord_storeWord, Nat.mod_eq_of_lt hp]

theorem destroy_big_ofError {E : Type} (native : endian) (F : Heap E) (prior : Mem) (p : Nat)
    (hp : p < 2 ^ 64) :
    RseBig.destroy native F (RseBig.ofError native prior ⟨p⟩).1 = F.delete p := by
  have hw := error_big_ofError native prior p hp
  simp only [RseBig.destroy, Error.free, hw]
  simp [RseBig.ofError, RseBig.RseErrorWarp.ofError]

theorem copy_of_live {E : Type} (h : Heap E) (q : Nat) (box : Error) (x : E)
    (hlive : h.cells box.error = some x) :
    Error.copy h q box = some (h.new q x, ⟨q⟩) := by
  simp only [Error.copy, hlive]

theorem assign_live {E : Type} (h : Heap E) (p : Nat) (x y : E) (hc : h.cells p = some x) :
    (h.assign p y).cells p = some y ∧ (∀ a, a ≠ p → (h.assign p y).cells a = h.cells a)
      ∧ (h.assign p y).allocs = h.allocs ∧ (h.assign p y).frees = h.frees := by
  have hd : h.assign p y
      = { h with cells := fun a => if a = p then some y else h.cells a } := by
    simp [Heap.assign, hc]
  rw [hd]
  refine ⟨by simp, ?_, rfl, rfl⟩
  intro a ha
  simp [ha]

theorem loadWord_le_one_iff (native : endian) (m : Mem) :
    loadWord native m ≤ 1
      ↔ (∀ j, j < 8 → j ≠ tagByte native → m j = 0) ∧ (m (tagByte native)).val ≤ 1 := by
  have h0 := (m 0).isLt
  have h1 := (m 1).isLt
  have h2 := (m 2).isLt
  have h3 := (m 3).isLt
  have h4 := (m 4).isLt
  have h5 := (m 5).isLt
  have h6 := (m 6).isLt
  have h7 := (m 7).isLt
  constructor
  · intro hle
    refine ⟨?_, ?_⟩
    · intro j hj hne
      apply Fin.ext
      cases native <;> simp only [loadWord, lane, tagByte] at hle hne <;> norm_num at hle <;>
        interval_cases j <;> simp only [Fin.val_zero] <;> omega
    · cases native <;> simp only [loadWord, lane, tagByte] at hle ⊢ <;> norm_num at hle <;>
        omega
  · rintro ⟨hz, ht⟩
    cases native
    · have z1 := congrArg Fin.val (hz 1 (by decide) (by decide))
      have z2 := congrArg Fin.val (hz 2 (by decide) (by decide))
      have z3 := congrArg Fin.val (hz 3 (by decide) (by decide))
      have z4 := congrArg Fin.val (hz 4 (by decide) (by decide))
      have z5 := congrArg Fin.val (hz 5 (by decide) (by decide))
      have z6 := congrArg Fin.val (hz 6 (by decide) (by decide))
      have z7 := congrArg Fin.val (hz 7 (by decide) (by decide))
      simp only [Fin.val_zero] at z1 z2 z3 z4 z5 z6 z7
      simp only [loadWord, lane, tagByte, z1, z2, z3, z4, z5, z6, z7] at ht ⊢
      omega
    · have z0 := congrArg Fin.val (hz 0 (by decide) (by decide))
      have z1 := congrArg Fin.val (hz 1 (by decide) (by decide))
      have z2 := congrArg Fin.val (hz 2 (by decide) (by decide))
      have z3 := congrArg Fin.val (hz 3 (by decide) (by decide))
      have z4 := congrArg Fin.val (hz 4 (by decide) (by decide))
      have z5 := congrArg Fin.val (hz 5 (by decide) (by decide))
      have z6 := congrArg Fin.val (hz 6 (by decide) (by decide))
      simp only [Fin.val_zero] at z0 z1 z2 z3 z4 z5 z6
      simp only [loadWord, lane, tagByte, z0, z1, z2, z3, z4, z5, z6] at ht ⊢
      omega

theorem lor_one_eq_one_iff (w : Nat) : w ||| 1 = 1 ↔ w ≤ 1 := by
  rw [lor_one_eq]
  omega

/-! ## Round trip, slots, the word 1 and upcasts, where the header has instances -/

/-- For a payload that is not a reference, of 1 to 7 bytes, on both byte orders, whatever
the storage held before: `success(v)` destructured gives `v` in slot 0 and a slot-1 handle
whose bool is false, the bool of the outcome being true. -/
theorem success_roundtrip_object_payload (native : endian) (T : TypeInfo) (prior : Mem)
    (v : List Byte) (hT : T.isObject) (h7 : T.size ≤ 7) (hv : v.length = T.size) :
    RseSmall.get0 native T (RseSmall.ofValue native T prior v) = v
      ∧ (RseSmall.get1 (RseSmall.ofValue native T prior v)).toBool native = false
      ∧ (RseSmall.ofValue native T prior v).toBool native = true := by
  obtain ⟨hat, hms⟩ := valueAt_object native T hT h7
  refine ⟨?_, toBool_ofValue native T prior v, toBool_small_ofValue native T prior v⟩
  apply value_ofValue native T prior v (by rw [hms]; exact hv)
  intro j hlo hhi
  rw [hat] at hlo hhi
  rw [hms] at hhi
  exact getOffset_range_ne_tagByte native T.size j h7 hlo hhi

/-- For a payload that is not a reference, of 1 to 7 bytes, and an allocator address with
lowest bit 0, the two layouts agree with the abstract outcome on slot 0, on the bool of
the slot-1 handle and on the dereferenced error, and the compact layout on the bool of
the outcome. -/
theorem layouts_agree_on_slots {E : Type} (native : endian) (T : TypeInfo) (v : List Byte)
    (priorS priorB : Mem) (h : Heap E) (p : Nat) (e : E)
    (hT : T.isObject) (h7 : T.size ≤ 7) (hv : v.length = T.size)
    (hp : p < 2 ^ 64) (hlow : p % 2 = 0) :
    ((RseSmall.ofValue native T priorS v).toBool native
          = (Outcome.Value v : Outcome E).isSuccess
        ∧ some (RseSmall.get0 native T (RseSmall.ofValue native T priorS v))
          = (Outcome.Value v : Outcome E).value
        ∧ some (RseBig.get0 T.size (RseBig.ofValue priorB v))
          = (Outcome.Value v : Outcome E).value
        ∧ (RseSmall.get1 (RseSmall.ofValue native T priorS v)).toBool native
          = (Outcome.Value v : Outcome E).isError
        ∧ (RseBig.get1 (RseBig.ofValue priorB v)).toBool
          = (Outcome.Value v : Outcome E).isError)
      ∧ ((RseSmall.ofErrorType native h p priorS e).2.toBool native
          = (Outcome.Failure e).isSuccess
        ∧ (RseSmall.get1 (RseSmall.ofErrorType native h p priorS e).2).toBool native
          = (Outcome.Failure e).isError
        ∧ (RseBig.get1 (RseBig.ofErrorType native h p priorB e).2).toBool
          = (Outcome.Failure e).isError
        ∧ (RseSmall.get1 (RseSmall.ofErrorType native h p priorS e).2).deref native
            (RseSmall.ofErrorType native h p priorS e).1 = (Outcome.Failure e).error
        ∧ (RseBig.get1 (RseBig.ofErrorType native h p priorB e).2).deref native
            (RseBig.ofErrorType native h p priorB e).1 = (Outcome.Failure e).error) := by
  obtain ⟨s0, s1, s2⟩ := success_roundtrip_object_payload native T priorS v hT h7 hv
  have f2 := toBool_ofErrorType native h p priorS e hp hlow
  have f3 := deref_ofErrorType native h p priorS e hp
  refine ⟨⟨s2, ?_, ?_, s1, rfl⟩, ⟨?_, f2, rfl, f3, ?_⟩⟩
  · rw [s0]
    rfl
  · rw [value_big_ofValue priorB v T.size hv]
    rfl
  · simp only [RseSmall.toBool]
    rw [f2]
    rfl
  · simp only [RseBig.get1, RseBig.RseErrorWarp.deref,
      error_big_ofErrorType native h p priorB e hp]
    simp [RseBig.ofErrorType, RseBig.RseErrorWarp.ofErrorType, Error.ofErrorType, Heap.new,
      Outcome.error]

/-- The word of `success(v)` is the integer 1 exactly when the storage, once `value` is
written, holds zero in every byte but the one carrying the tag bit, and 0 or 1 there. -/
theorem errorWord_ofValue_eq_one_iff (native : endian) (T : TypeInfo) (prior : Mem)
    (v : List Byte) :
    (RseSmall.ofValue native T prior v).rseErrorWarp.errorWord native = 1
      ↔ (∀ j, j < 8 → j ≠ tagByte native →
          storeBytes prior (RseSmall.valueAt native T) v j = 0)
        ∧ (storeBytes prior (RseSmall.valueAt native T) v (tagByte native)).val ≤ 1 := by
  simp only [RseSmall.ofValue]
  rw [errorWord_ofValue native T prior v, lor_one_eq_one_iff, loadWord_le_one_iff]

/-- For a derived error type whose `Base` subobject starts at offset 0, and a box holding
the derived error `e` at an address with lowest bit 0: the box seen as a box of `Base` is
the same box with the same pointer; the outcome built from it, in either layout, has that
pointer and a handle whose bool is true, which dereferences to the `Base`-typed part of
`e`. -/
theorem upcast_base_at_start (native : endian) (b : BaseOf) (h : Heap (List Byte))
    (prior : Mem) (p : Nat) (e : List Byte) (hlive : h.cells p = some e)
    (hp : p < 2 ^ 64) (hlow : p % 2 = 0) (hoff : b.offset = 0) :
    (Error.upcast ⟨p⟩ = ⟨p⟩ ∧ (Error.upcast ⟨p⟩).error = p)
      ∧ ((RseSmall.ofInheritedError native prior ⟨p⟩).1.rseErrorWarp.errorWord native = p
        ∧ (RseSmall.ofInheritedError native prior ⟨p⟩).1.toBool native = false
        ∧ (RseSmall.get1 (RseSmall.ofInheritedError native prior ⟨p⟩).1).toBool native = true
        ∧ (RseSmall.get1 (RseSmall.ofInheritedError native prior ⟨p⟩).1).derefBase native b h
          = some (b.part e))
      ∧ ((RseBig.ofInheritedError native prior ⟨p⟩).1.rseErrorWarp.error native = ⟨p⟩
        ∧ (RseBig.get1 (RseBig.ofInheritedError native prior ⟨p⟩).1).toBool = true
        ∧ (RseBig.get1 (RseBig.ofInheritedError native prior ⟨p⟩).1).derefBase native b h
          = some (b.part e)) := by
  have hw := errorWord_ofError native prior p hp
  have hbig := error_big_ofError native prior p hp
  have hb : (RseSmall.ofError native prior ⟨p⟩).1.rseErrorWarp.toBool native = true := by
    simp only [RseSmall.RseErrorWarp.toBool, hw]
    rw [and_one_of_even p hlow]
    rfl
  have hpart : b.part e = e.take b.size := by
    simp only [BaseOf.part, hoff, List.drop_zero]
  refine ⟨⟨rfl, rfl⟩, ⟨hw, ?_, hb, ?_⟩, ⟨hbig, rfl, ?_⟩⟩
  · simp only [RseSmall.ofInheritedError, Error.upcast, RseSmall.toBool]
    rw [hb]
    rfl
  · simp only [RseSmall.ofInheritedError, Error.upcast, RseSmall.get1,
      RseSmall.RseErrorWarp.derefBase, RseSmall.RseErrorWarp.error, hw, hlive, hpart]
    rfl
  · simp only [RseBig.ofInheritedError, Error.upcast, RseBig.get1,
      RseBig.RseErrorWarp.derefBase, hbig, hlive, hpart]
    rfl

/-! ## Claims -/

/-- C1. The round trip fails for the reference payload `int&` of the test's
`Rse<int&, int>` on a big-endian target.  `sizeof(int&)` is 4, so this is the compact
layout, but the member `value` is the 8-byte address the reference is bound to and lies
at offset 0, over the whole word; ORing 1 into the pointer changes that address.  With
`i` at `0x1000`, slot 0 of `success(i)` reads back the address `0x1001`. -/
theorem C1_reference_payload_big_endian :
    Rse TypeInfo.intRef TypeInfo.int = Layout.RseSmall
      ∧ RseSmall.valueAt endian.big TypeInfo.intRef = 0
      ∧ TypeInfo.intRef.memberSize = 8
      ∧ RseSmall.get0 endian.big TypeInfo.intRef
          (RseSmall.ofValue endian.big TypeInfo.intRef (fun _ => 0) [0, 0, 0, 0, 0, 0, 16, 0])
        = [0, 0, 0, 0, 0, 0, 16, 1]
      ∧ RseSmall.get0 endian.big TypeInfo.intRef
          (RseSmall.ofValue endian.big TypeInfo.intRef (fun _ => 0) [0, 0, 0, 0, 0, 0, 16, 0])
        ≠ [0, 0, 0, 0, 0, 0, 16, 0] := by
  decide

/-- C2. Compact layout: when the allocator hands out an address `p` whose lowest bit is
0, `failure(e)` has `p` itself as its word, the bool of the outcome is false, the bool of
the slot-1 handle is true, and dereferencing the handle gives `e`; a failure built from
an existing box likewise has the pointer of the box as its word. -/
theorem C2_failure_stores_pointer {E : Type} (native : endian) (h : Heap E) (prior : Mem)
    (p : Nat) (e : E) (hp : p < 2 ^ 64) (hlow : p % 2 = 0) :
    (RseSmall.ofErrorType native h p prior e).2.rseErrorWarp.errorWord native = p
      ∧ (RseSmall.ofErrorType native h p prior e).2.toBool native = false
      ∧ (RseSmall.get1 (RseSmall.ofErrorType native h p prior e).2).toBool native = true
      ∧ (RseSmall.get1 (RseSmall.ofErrorType native h p prior e).2).deref native
          (RseSmall.ofErrorType native h p prior e).1 = some e
      ∧ (RseSmall.ofError native prior ⟨p⟩).1.rseErrorWarp.errorWord native = p := by
  have hb := toBool_ofErrorType native h p prior e hp hlow
  refine ⟨errorWord_ofErrorType native h p prior e hp, ?_, hb, ?_, ?_⟩
  · simp only [RseSmall.toBool]
    rw [hb]
    rfl
  · exact deref_ofErrorType native h p prior e hp
  · exact errorWord_ofError native prior p hp

/-- C2, at a concrete input: the error `"string"` allocated at address `0x1000` on a
little-endian target. -/
theorem C2_failure_stores_pointer_witness :
    (4096 < 2 ^ 64 ∧ 4096 % 2 = 0)
      ∧ (RseSmall.ofErrorType endian.little (Heap.empty : Heap String) 4096 (fun _ => 255)
          "string").2.rseErrorWarp.errorWord endian.little = 4096
      ∧ (RseSmall.ofErrorType endian.little (Heap.empty : Heap String) 4096 (fun _ => 255)
          "string").2.toBool endian.little = false
      ∧ (RseSmall.get1 (RseSmall.ofErrorType endian.little (Heap.empty : Heap String) 4096
          (fun _ => 255) "string").2).toBool endian.little = true
      ∧ (RseSmall.get1 (RseSmall.ofErrorType endian.little (Heap.empty : Heap String) 4096
          (fun _ => 255) "string").2).deref endian.little
          (RseSmall.ofErrorType endian.little (Heap.empty : Heap String) 4096 (fun _ => 255)
            "string").1 = some "string"
      ∧ (RseSmall.ofError endian.little (fun _ => 255) ⟨4096⟩).1.rseErrorWarp.errorWord
          endian.little = 4096 :=
  ⟨⟨by decide, by decide⟩,
    C2_failure_stores_pointer endian.little Heap.empty (fun _ => 255) 4096 "string"
      (by decide) (by decide)⟩

/-- C3, as stated, fails at the payload `int&` of `fn2`: `sizeof(int&)` is 4, with
alignment 4 dividing it, the alias picks the compact layout, and its storage is 16 bytes
(4 padding bytes, then the reference member at pointer alignment), not 8. -/
theorem C3_counterexample_reference_payload :
    (1 ≤ TypeInfo.intRef.size ∧ TypeInfo.intRef.size ≤ 7)
      ∧ (TypeInfo.intRef.align = 2 ^ 2 ∧ TypeInfo.intRef.align ∣ TypeInfo.intRef.size)
      ∧ Rse TypeInfo.intRef TypeInfo.int = Layout.RseSmall
      ∧ sizeofRseSmall endian.little TypeInfo.intRef TypeInfo.int = 16
      ∧ sizeofRseSmall endian.little TypeInfo.intRef TypeInfo.int ≠ 8 := by
  decide

/-- C3, amended. For every payload type `T` that is not a reference, with
`1 ≤ sizeof(T) ≤ 7` and an alignment that is a power of two dividing `sizeof(T)`, on both
byte orders and for every error type, the storage of the compact outcome is exactly 8
bytes. -/
theorem C3_compact_size_is_pointer (native : endian) (T E : TypeInfo) (hT : T.isObject)
    (h7 : T.size ≤ 7) :
    sizeofRseSmall native T E = 8 := by
  obtain ⟨size, align, isRef⟩ := T
  obtain ⟨hr, h0, hpow, hdvd⟩ := hT
  simp only at hr h0 hpow hdvd h7
  subst hr
  have ha := align_cases size align h7 h0 hpow hdvd
  have hs : size = 1 ∨ size = 2 ∨ size = 3 ∨ size = 4 ∨ size = 5 ∨ size = 6 ∨ size = 7 := by
    omega
  rcases ha with rfl | rfl | rfl <;> rcases hs with rfl | rfl | rfl | rfl | rfl | rfl | rfl <;>
    first
    | (exfalso; revert hdvd; decide)
    | (cases native <;>
        simp [sizeofRseSmall, RseSmall.getOffset, alignUp, TypeInfo.memberAlign,
          TypeInfo.memberSize, pointerSize, sizeofError])

/-- C3, amended, at a concrete input: `Rse<int>` of the test program, little-endian. -/
theorem C3_compact_size_is_pointer_witness :
    (TypeInfo.int.isObject ∧ TypeInfo.int.size ≤ 7)
      ∧ sizeofRseSmall endian.little TypeInfo.int TypeInfo.string = 8 :=
  ⟨⟨⟨rfl, by decide, ⟨2, rfl⟩, by decide⟩, by decide⟩,
    C3_compact_size_is_pointer endian.little TypeInfo.int TypeInfo.string
      ⟨rfl, by decide, ⟨2, rfl⟩, by decide⟩ (by decide)⟩

/-- C4. Little-endian, pointer size 8: `getOffset()` is 4 when `sizeof(T) ≤ 4`, 2 when
`5 ≤ sizeof(T) ≤ 6` and 1 when `sizeof(T) = 7`; for `sizeof(T)` from 1 to 7 the bytes
`[offset, offset + sizeof(T))` lie inside the 8-byte word and none of them is byte 0,
which is the byte that carries the discriminant bit: the low bit of the word is the low
bit of byte 0, and ORing 1 into the word changes no other byte. -/
theorem C4_little_endian_offset (size : Nat) (h1 : 1 ≤ size) (h7 : size ≤ 7) :
    (size ≤ 4 → RseSmall.getOffset endian.little size = 4)
      ∧ (5 ≤ size ∧ size ≤ 6 → RseSmall.getOffset endian.little size = 2)
      ∧ (size = 7 → RseSmall.getOffset endian.little size = 1)
      ∧ (∀ j, RseSmall.getOffset endian.little size ≤ j →
          j < RseSmall.getOffset endian.little size + size → j < 8 ∧ j ≠ 0)
      ∧ (∀ m : Mem, loadWord endian.little m % 2 = (m 0).val % 2)
      ∧ (∀ (m : Mem) (j : Nat), j ≠ 0 →
          storeWord endian.little (loadWord endian.little m ||| 1) m j = m j) := by
  refine ⟨?_, ?_, ?_, ?_, ?_, ?_⟩
  · intro h
    simp [RseSmall.getOffset, h]
  · intro h
    have h4 : ¬ size ≤ 4 := by omega
    simp [RseSmall.getOffset, h4, h.2]
  · intro h
    subst h
    rfl
  · intro j hlo hhi
    have hle := getOffset_add_le endian.little size h7
    have hne := getOffset_range_ne_tagByte endian.little size j h7 hlo hhi
    exact ⟨by omega, hne⟩
  · intro m
    exact loadWord_mod_two endian.little m
  · intro m j hj
    exact storeWord_lor_one_frame endian.little m j hj

/-- C4, at a concrete input: a 7-byte payload. -/
theorem C4_little_endian_offset_witness :
    (1 ≤ 7 ∧ 7 ≤ 7) ∧ RseSmall.getOffset endian.little 7 = 1
      ∧ (∀ j, RseSmall.getOffset endian.little 7 ≤ j →
          j < RseSmall.getOffset endian.little 7 + 7 → j < 8 ∧ j ≠ 0) :=
  ⟨⟨by decide, by decide⟩,
    (C4_little_endian_offset 7 (by decide) (by decide)).2.2.1 rfl,
    (C4_little_endian_offset 7 (by decide) (by decide)).2.2.2.1⟩

/-- C5. On a big-endian target `getOffset()` is 0, but for the reference payload `int&`
of the test's `Rse<int&, int>` the bytes of the member are not `[0, sizeof(T)) = [0, 4)`:
the member is an 8-byte address at offset 0, byte 7 included, the byte that carries the
low bit of the word.  Setting the discriminant bit changes that byte of the member: with
the address `0x1000` stored, byte 7 goes from 0 to 1. -/
theorem C5_reference_payload_covers_tag_byte :
    RseSmall.getOffset endian.big TypeInfo.intRef.size = 0
      ∧ ¬ (tagByte endian.big
          < RseSmall.getOffset endian.big TypeInfo.intRef.size + TypeInfo.intRef.size)
      ∧ (RseSmall.valueAt endian.big TypeInfo.intRef ≤ tagByte endian.big
        ∧ tagByte endian.big
          < RseSmall.valueAt endian.big TypeInfo.intRef + TypeInfo.intRef.memberSize)
      ∧ storeBytes (fun _ => 0) (RseSmall.valueAt endian.big TypeInfo.intRef)
          [0, 0, 0, 0, 0, 0, 16, 0] (tagByte endian.big) = 0
      ∧ (RseSmall.ofValue endian.big TypeInfo.intRef (fun _ => 0)
          [0, 0, 0, 0, 0, 0, 16, 0]).rseErrorWarp.bytes (tagByte endian.big) = 1 := by
  decide

/-- C6, as stated, fails for a target whose pointers are not 8 bytes: with 4-byte
pointers and `T = int` (4 bytes) the alias still picks the compact layout, although
`sizeof(T) < sizeof(pointer)` is false.  So the choice is not "compact exactly when
`sizeof(T) < sizeof(pointer)`" for every pointer width. -/
theorem C6_counterexample_pointer_width :
    ¬ (∀ (pointerWidth : Nat) (T E : TypeInfo),
        Rse T E = Layout.RseSmall ↔ T.size < pointerWidth) := by
  intro h
  have h4 := (h 4 TypeInfo.int TypeInfo.string).1 (by decide)
  revert h4
  decide

/-- C6, amended. For every payload type `T` and error type `E`, `Rse<T,E>` is the compact
layout exactly when `sizeof(T) < 8` (the pointer size of a 64-bit target) and the general
layout otherwise; two instantiations whose payloads have the same `sizeof` get the same
layout, whatever else differs. -/
theorem C6_layout_choice (T E : TypeInfo) :
    (Rse T E = Layout.RseSmall ↔ T.size < 8)
      ∧ (Rse T E = Layout.RseBig ↔ ¬ T.size < 8)
      ∧ (∀ T2 E2 : TypeInfo, T2.size = T.size → Rse T2 E2 = Rse T E) := by
  refine ⟨?_, ?_, ?_⟩
  · by_cases h : T.size < 8 <;> simp [Rse, h]
  · by_cases h : T.size < 8 <;> simp [Rse, h]
  · intro T2 E2 h
    simp only [Rse, h]

/-- C6, amended, at concrete inputs: an 8-byte payload gets the general layout, and `int&`
gets the layout of `int`. -/
theorem C6_layout_choice_witness :
    Rse TypeInfo.int64 TypeInfo.string = Layout.RseBig
      ∧ (TypeInfo.intRef.size = TypeInfo.int.size
          ∧ Rse TypeInfo.intRef TypeInfo.int = Rse TypeInfo.int TypeInfo.string) :=
  ⟨(C6_layout_choice TypeInfo.int64 TypeInfo.string).2.1.2 (by decide),
    rfl, (C6_layout_choice TypeInfo.int TypeInfo.string).2.2 TypeInfo.intRef TypeInfo.int rfl⟩

/-- C13. Copying a box whose error is live, the allocator handing out an address not in
use: the copy points to that new address, which differs from the one of the original, one
allocation is made, the new error equals the original one, and an assignment to the error
of the copy leaves the error of the original as it was, and the other way round; a
failure built from the copy dereferences to the copied error. -/
theorem C13_copy_is_deep {E : Type} (native : endian) (h : Heap E) (prior : Mem) (q : Nat)
    (box : Error) (x y : E) (hlive : h.cells box.error = some x) (hfresh : h.cells q = none)
    (hq : q < 2 ^ 64) :
    Error.copy h q box = some (h.new q x, ⟨q⟩)
      ∧ q ≠ box.error
      ∧ (h.new q x).allocs = h.allocs + 1
      ∧ (h.new q x).cells q = some x
      ∧ (h.new q x).cells box.error = some x
      ∧ (((h.new q x).assign q y).cells q = some y
        ∧ ((h.new q x).assign q y).cells box.error = some x)
      ∧ (((h.new q x).assign box.error y).cells box.error = some y
        ∧ ((h.new q x).assign box.error y).cells q = some x)
      ∧ ((RseSmall.get1 (RseSmall.ofError native prior ⟨q⟩).1).deref native (h.new q x)
          = some x
        ∧ (RseBig.get1 (RseBig.ofError native prior ⟨q⟩).1).deref native (h.new q x)
          = some x) := by
  have hne : q ≠ box.error := by
    intro hc
    rw [hc, hlive] at hfresh
    exact Option.noConfusion hfresh
  have hcq : (h.new q x).cells q = some x := by simp [Heap.new]
  have hcb : (h.new q x).cells box.error = some x := by
    simp [Heap.new, Ne.symm hne, hlive]
  obtain ⟨a1, a2, _, _⟩ := assign_live (h.new q x) q x y hcq
  obtain ⟨b1, b2, _, _⟩ := assign_live (h.new q x) box.error x y hcb
  refine ⟨copy_of_live h q box x hlive, hne, rfl, hcq, hcb, ⟨a1, ?_⟩, ⟨b1, ?_⟩, ⟨?_, ?_⟩⟩
  · rw [a2 box.error (Ne.symm hne)]
    exact hcb
  · rw [b2 q hne]
    exact hcq
  · simp only [RseSmall.get1, RseSmall.RseErrorWarp.deref, RseSmall.RseErrorWarp.error,
      errorWord_ofError native prior q hq]
    exact hcq
  · simp only [RseBig.get1, RseBig.RseErrorWarp.deref, error_big_ofError native prior q hq]
    exact hcq

/-- C13, at a concrete input: the box of `"bad"` at `0x1000` copied to `0x1010`, then the
copy set to `"new"`. -/
theorem C13_copy_is_deep_witness :
    ((Heap.empty.new 4096 "bad" : Heap String).cells 4096 = some "bad"
        ∧ (Heap.empty.new 4096 "bad" : Heap String).cells 4112 = none ∧ 4112 < 2 ^ 64)
      ∧ Error.copy (Heap.empty.new 4096 "bad" : Heap String) 4112 ⟨4096⟩
          = some ((Heap.empty.new 4096 "bad" : Heap String).new 4112 "bad", ⟨4112⟩)
      ∧ ((((Heap.empty.new 4096 "bad" : Heap String).new 4112 "bad").assign 4112 "new").cells
            4112 = some "new"
        ∧ (((Heap.empty.new 4096 "bad" : Heap String).new 4112 "bad").assign 4112 "new").cells
            4096 = some "bad") :=
  ⟨⟨by decide, by decide, by decide⟩,
    (C13_copy_is_deep endian.little (Heap.empty.new 4096 "bad" : Heap String) (fun _ => 0)
      4112 ⟨4096⟩ "bad" "new" (by decide) (by decide) (by decide)).1,
    (C13_copy_is_deep endian.little (Heap.empty.new 4096 "bad" : Heap String) (fun _ => 0)
      4112 ⟨4096⟩ "bad" "new" (by decide) (by decide) (by decide)).2.2.2.2.2.1⟩

/-- C14. The upcast fails for a base class whose subobject does not start the derived
object (a second base class, or a base without virtual functions under a derived class
that has some), which `std::is_base_of_v` admits: with an 8-byte `Base` at offset 8 of a
16-byte derived error, the handle of the outcome built from the box dereferences to the
first 8 bytes of the object, not to its `Base`-typed part. -/
theorem C14_base_at_offset_reads_wrong_subobject :
    (RseSmall.get1 (RseSmall.ofInheritedError endian.little (fun _ => 0) ⟨4096⟩).1).derefBase
        endian.little ⟨8, 8⟩
        ((Heap.empty : Heap (List Byte)).new 4096
          [1, 2, 3, 4, 5, 6, 7, 8, 9, 10, 11, 12, 13, 14, 15, 16])
      = some [1, 2, 3, 4, 5, 6, 7, 8]
      ∧ BaseOf.part ⟨8, 8⟩ [1, 2, 3, 4, 5, 6, 7, 8, 9, 10, 11, 12, 13, 14, 15, 16]
        = [9, 10, 11, 12, 13, 14, 15, 16]
      ∧ (RseSmall.get1 (RseSmall.ofInheritedError endian.little (fun _ => 0)
            ⟨4096⟩).1).derefBase endian.little ⟨8, 8⟩
          ((Heap.empty : Heap (List Byte)).new 4096
            [1, 2, 3, 4, 5, 6, 7, 8, 9, 10, 11, 12, 13, 14, 15, 16])
        ≠ some (BaseOf.part ⟨8, 8⟩ [1, 2, 3, 4, 5, 6, 7, 8, 9, 10, 11, 12, 13, 14, 15, 16]) := by
  decide

/-- C15. Compact layout: for every error pointer whose lowest bit is 1, the outcome built
by failure from a box holding that pointer has a slot-1 handle whose bool is false,
reports success, and its destructor leaves the free store as it is; when such a pointer
comes out of the allocator, the error allocated by `failure(e)` is still allocated after
the outcome is destroyed, no free having been made. -/
theorem C15_odd_pointer_reads_as_success {E : Type} (native : endian) (h : Heap E)
    (prior : Mem) (p : Nat) (e : E) (hp : p < 2 ^ 64) (hodd : p % 2 = 1) :
    ((RseSmall.get1 (RseSmall.ofError native prior ⟨p⟩).1).toBool native = false
        ∧ (RseSmall.ofError native prior ⟨p⟩).1.toBool native = true
        ∧ RseSmall.destroy native h (RseSmall.ofError native prior ⟨p⟩).1 = h)
      ∧ ((RseSmall.get1 (RseSmall.ofErrorType native h p prior e).2).toBool native = false
        ∧ (RseSmall.ofErrorType native h p prior e).2.toBool native = true
        ∧ RseSmall.destroy native (RseSmall.ofErrorType native h p prior e).1
            (RseSmall.ofErrorType native h p prior e).2 = h.new p e
        ∧ (h.new p e).allocs = h.allocs + 1 ∧ (h.new p e).frees = h.frees
        ∧ (h.new p e).cells p = some e) := by
  have hw1 := errorWord_ofError native prior p hp
  have hw2 := errorWord_ofErrorType native h p prior e hp
  have hb1 := toBool_of_odd native (RseSmall.ofError native prior ⟨p⟩).1.rseErrorWarp
    (by rw [hw1]; exact hodd)
  have hb2 := toBool_of_odd native (RseSmall.ofErrorType native h p prior e).2.rseErrorWarp
    (by rw [hw2]; exact hodd)
  refine ⟨⟨hb1, ?_, ?_⟩, ⟨hb2, ?_, ?_, rfl, rfl, ?_⟩⟩
  · simp only [RseSmall.toBool]
    rw [hb1]
    rfl
  · exact destroy_of_odd native h _ (by rw [hw1]; exact hodd)
  · simp only [RseSmall.toBool]
    rw [hb2]
    rfl
  · exact destroy_of_odd native _ _ (by rw [hw2]; exact hodd)
  · simp [Heap.new]

/-- C15, at a concrete input: the error `"bad"` at the odd address `0x1001` on a
little-endian target. -/
theorem C15_odd_pointer_reads_as_success_witness :
    (4097 < 2 ^ 64 ∧ 4097 % 2 = 1)
      ∧ (RseSmall.get1 (RseSmall.ofError endian.little (fun _ => 0) ⟨4097⟩).1).toBool
          endian.little = false
      ∧ (RseSmall.ofError endian.little (fun _ => 0) ⟨4097⟩).1.toBool endian.little = true
      ∧ RseSmall.destroy endian.little (Heap.empty : Heap String)
          (RseSmall.ofError endian.little (fun _ => 0) ⟨4097⟩).1 = Heap.empty :=
  ⟨⟨by decide, by decide⟩,
    (C15_odd_pointer_reads_as_success endian.little (Heap.empty : Heap String) (fun _ => 0)
      4097 "bad" (by decide) (by decide)).1⟩

/-- C17. A box never frees its own allocation: a box constructed, or copy-constructed from
a live box, and then destroyed leaves one more allocation and no more free than before,
the error staying allocated, so that from a balanced store the allocation count exceeds
the free count by one; the error is released by `free()`, which the destructor of an
outcome owning the box calls. -/
theorem C17_box_never_frees {E : Type} (native : endian) (h : Heap E) (prior : Mem)
    (p q : Nat) (e x : E) (box : Error) (hlive : h.cells box.error = some x)
    (hp0 : p ≠ 0) (hp : p < 2 ^ 64) (hlow : p % 2 = 0) :
    ((Error.destroy (Error.ofErrorType h p e).1 (Error.ofErrorType h p e).2).allocs
          = h.allocs + 1
        ∧ (Error.destroy (Error.ofErrorType h p e).1 (Error.ofErrorType h p e).2).frees
          = h.frees
        ∧ (Error.destroy (Error.ofErrorType h p e).1 (Error.ofErrorType h p e).2).cells p
          = some e)
      ∧ (∃ r, Error.copy h q box = some r
        ∧ (Error.destroy r.1 r.2).allocs = h.allocs + 1
        ∧ (Error.destroy r.1 r.2).frees = h.frees
        ∧ (Error.destroy r.1 r.2).cells q = some x)
      ∧ (h.allocs = h.frees →
          (Error.destroy (Error.ofErrorType h p e).1 (Error.ofErrorType h p e).2).allocs
            = (Error.destroy (Error.ofErrorType h p e).1 (Error.ofErrorType h p e).2).frees
              + 1)
      ∧ (Error.free (Error.ofErrorType h p e).1 (Error.ofErrorType h p e).2).frees
          = h.frees + 1
      ∧ (RseSmall.destroy native (Error.ofErrorType h p e).1
          (RseSmall.ofError native prior (Error.ofErrorType h p e).2).1).frees = h.frees + 1
      ∧ (RseBig.destroy native (Error.ofErrorType h p e).1
          (RseBig.ofError native prior (Error.ofErrorType h p e).2).1).frees = h.frees + 1 := by
  have hnew : (h.new p e).cells p = some e := by simp [Heap.new]
  have hdel := (delete_frees_live (h.new p e) p e hp0 hnew).1
  refine ⟨⟨rfl, rfl, hnew⟩, ⟨(h.new q x, ⟨q⟩), copy_of_live h q box x hlive, rfl, rfl, ?_⟩,
    ?_, hdel, ?_, ?_⟩
  · simp [Error.destroy, Heap.new]
  · intro hbal
    simp only [Error.destroy, Error.ofErrorType, Heap.new, hbal]
  · simp only [Error.ofErrorType]
    rw [destroy_small_ofError native _ prior p hp hlow]
    exact hdel
  · simp only [Error.ofErrorType]
    rw [destroy_big_ofError native _ prior p hp]
    exact hdel

/-- C17, at a concrete input: a box holding `"bad"` at `0x1000`, built and destroyed on a
free store where `"old"` lives at `0x2000`. -/
theorem C17_box_never_frees_witness :
    (Error.destroy (Error.ofErrorType (Heap.empty.new 8192 "old" : Heap String) 4096 "bad").1
        (Error.ofErrorType (Heap.empty.new 8192 "old" : Heap String) 4096 "bad").2).frees
      = (Heap.empty.new 8192 "old" : Heap String).frees :=
  (C17_box_never_frees endian.little (Heap.empty.new 8192 "old" : Heap String) (fun _ => 0)
    4096 4112 "bad" "old" ⟨8192⟩ (by decide) (by decide) (by decide) (by decide)).1.2.1

end RSE
